import Mathlib

/-!
Verification of the derived market-state computation in
`src/utils/metadata/market_data_manager.py`.

The Python code operates on polars DataFrames; here each per-row or
per-symbol computation is embedded as a pure Lean function:
  * prices and percentages are rationals (`ℚ`); `.round(2)` becomes `round2`;
  * a nullable column value becomes an `Option`;
  * polars' Kleene three-valued `|` on nullable booleans becomes `kor`;
  * a per-symbol column (one symbol's rows, already sorted by date)
    becomes a `List`.
-/

namespace Replay

/-- Polars `.round(2)`: round to two decimal places.  Embedded with
Mathlib's `round` on `ℚ` (the concrete inputs used in the theorems below
never sit exactly on a half, where tie-breaking conventions could differ
from the float implementation). -/
def round2 (q : ℚ) : ℚ := (round (q * 100) : ℤ) / 100

/-- Kleene (three-valued) disjunction, the semantics of polars `|` on
nullable boolean columns: `true` absorbs null, otherwise null propagates. -/
def kor : Option Bool → Option Bool → Option Bool
  | some true, _ => some true
  | _, some true => some true
  | some false, some false => some false
  | _, _ => none

/-- Character-list version of `str.starts_with`: does `s` start with `p`? -/
def starts (s p : List Char) : Bool :=
  match s, p with
  | _, [] => true
  | [], _ :: _ => false
  | a :: as, b :: bs => a == b && starts as bs

/-- Polars `pl.col('名称').str.contains('ST')`: the two-character substring
`ST` occurs somewhere in the name. -/
def hasST : List Char → Bool
  | 'S' :: 'T' :: _ => true
  | _ :: rest => hasST rest
  | [] => false

/-- Embedding of `get_limit_pct_expr` in `compute_limits`.  The source
builds a nested `pl.when/.then/.otherwise` expression by starting from the
default 0.10, wrapping it with the ST-name test, and then wrapping that
with one `when` per code prefix in dict order '68', '30', '8', '4', '9'.
Each later wrap becomes the outermost test, so the evaluated precedence is
'9', '4', '8', '30', '68', then the ST name test, then the default. -/
def limit_pct (code name : String) : ℚ :=
  if starts code.data ['9'] then 0.30
  else if starts code.data ['4'] then 0.30
  else if starts code.data ['8'] then 0.30
  else if starts code.data ['3', '0'] then 0.20
  else if starts code.data ['6', '8'] then 0.20
  else if hasST name.data then 0.05
  else 0.10

/-- Restatement of claim C2's amended precedence order, written exactly as
the amended sentence reads: the code-prefix rules come first (prefixes
"8"/"4"/"9" give 30%, else "68"/"30" give 20%), only then is the
special-treatment name test consulted (5%), else the 10% default. -/
def limit_pct_amended (code name : String) : ℚ :=
  if starts code.data ['8'] || starts code.data ['4'] || starts code.data ['9'] then 0.30
  else if starts code.data ['6', '8'] || starts code.data ['3', '0'] then 0.20
  else if hasST name.data then 0.05
  else 0.10

/-- Claim C2 (counterexample): the claim says a special-treatment stock
whose code starts with "68" still gets 5%.  In the code the prefix test is
the outer `when`, so the STAR-board ST stock with code "688001" gets 20%,
not 5%. -/
theorem c2_st_prefix_counterexample :
    limit_pct "688001" "ST丰华" = 0.20 ∧ limit_pct "688001" "ST丰华" ≠ 0.05 := by
  constructor <;> simp [limit_pct, starts, hasST] <;> norm_num

/-- Claim C2 (amended): the classification rules are evaluated with the
code-prefix tests taking precedence over the special-treatment name test:
prefix "8"/"4"/"9" gives 30%, else prefix "68"/"30" gives 20%, else a name
containing "ST" gives 5%, else 10%.  In particular an ST-named stock with
one of those code prefixes gets the prefix percentage, not 5%. -/
theorem c2_limit_pct_precedence_amended (code name : String) :
    limit_pct code name = limit_pct_amended code name := by
  unfold limit_pct limit_pct_amended
  cases h9 : starts code.data ['9'] <;>
    cases h4 : starts code.data ['4'] <;>
      cases h8 : starts code.data ['8'] <;>
        cases h30 : starts code.data ['3', '0'] <;>
          cases h68 : starts code.data ['6', '8'] <;>
            simp [h9, h4, h8, h30, h68]

/-- Rounding to two decimals is monotone. -/
theorem round2_mono {a b : ℚ} (h : a ≤ b) : round2 a ≤ round2 b := by
  unfold round2
  have hz : round (a * 100) ≤ round (b * 100) := by
    rw [round_eq, round_eq]
    exact Int.floor_le_floor (by linarith)
  have : ((round (a * 100) : ℤ) : ℚ) ≤ ((round (b * 100) : ℤ) : ℚ) := by exact_mod_cast hz
  linarith

/-- Rounding to two decimals is idempotent. -/
theorem round2_round2 (x : ℚ) : round2 (round2 x) = round2 x := by
  unfold round2
  have h : ((round (x * 100) : ℤ) : ℚ) / 100 * 100 = ((round (x * 100) : ℤ) : ℚ) := by
    field_simp
  rw [h, round_intCast]

/-- One input row of `compute_limits`, after the `昨收` column has been
filled by `pl.col('收盘').shift(1).over('名称')`: `prevClose` is `none`
exactly on a symbol's first row.  `pctChange` is the supplied `涨跌幅`
column of the raw daily bar. -/
structure BarRow where
  code : String
  name : String
  prevClose : Option ℚ
  closeP : ℚ
  highP : ℚ
  pctChange : ℚ

/-- Column `涨停价` of `compute_limits`: `(昨收 * (1 + 涨跌幅限制)).round(2)`,
null when `昨收` is null. -/
def limit_up_price (r : BarRow) : Option ℚ :=
  r.prevClose.map (fun p => round2 (p * (1 + limit_pct r.code r.name)))

/-- Column `跌停价` of `compute_limits`: `(昨收 * (1 - 涨跌幅限制)).round(2)`. -/
def limit_down_price (r : BarRow) : Option ℚ :=
  r.prevClose.map (fun p => round2 (p * (1 - limit_pct r.code r.name)))

/-- Column `涨停` of `compute_limits`:
`(涨跌幅 * 0.01 >= 涨跌幅限制) | (涨停价 == 收盘)` with polars Kleene `|`;
the left disjunct never involves a nullable column, the right one is null
on a symbol's first row. -/
def zhangting (r : BarRow) : Option Bool :=
  kor (some (if r.pctChange * 0.01 ≥ limit_pct r.code r.name then true else false))
      ((limit_up_price r).map (fun lu => if lu = r.closeP then true else false))

/-- Column `跌停` of `compute_limits`:
`(涨跌幅 * 0.01 <= -涨跌幅限制) | (跌停价 == 收盘)`. -/
def dieting (r : BarRow) : Option Bool :=
  kor (some (if r.pctChange * 0.01 ≤ -limit_pct r.code r.name then true else false))
      ((limit_down_price r).map (fun ld => if ld = r.closeP then true else false))

/-- Claim C4 (counterexample): the claim says the `涨停` and `跌停` flags
are never simultaneously true, for all input bars.  Two concrete rows
falsify it.  First a row whose supplied `涨跌幅` column (10) meets the 10%
limit while the close sits exactly on the limit-down price: the supplied
percent-change column is an independent input, so both flags come out
true even though the limit prices differ.  Second the degenerate row the
claim itself mentions: with previous close 0.04 the rounded limit-up and
limit-down prices coincide at 0.04, and a flat close at 0.04 sets both
flags. -/
theorem c4_both_flags_counterexample :
    (zhangting ⟨"600000", "PA", some 10, 9, 9, 10⟩ = some true ∧
     dieting ⟨"600000", "PA", some 10, 9, 9, 10⟩ = some true ∧
     limit_up_price ⟨"600000", "PA", some 10, 9, 9, 10⟩ ≠
       limit_down_price ⟨"600000", "PA", some 10, 9, 9, 10⟩) ∧
    (zhangting ⟨"600000", "PA", some (1/25), 1/25, 1/25, 0⟩ = some true ∧
     dieting ⟨"600000", "PA", some (1/25), 1/25, 1/25, 0⟩ = some true) := by
  have hpct : limit_pct "600000" "PA" = 1/10 := by
    simp [limit_pct, starts, hasST]; norm_num
  refine ⟨⟨?_, ?_, ?_⟩, ?_, ?_⟩ <;>
    simp only [zhangting, dieting, limit_up_price, limit_down_price, hpct, Option.map_some',
      round2, round_eq] <;>
    norm_num [Int.floor_eq_iff, kor]

/-- Every branch of the limit-percentage rule is positive. -/
theorem limit_pct_pos (code name : String) : 0 < limit_pct code name := by
  unfold limit_pct
  repeat' split
  all_goals norm_num

/-- Kleene disjunction on two non-null booleans is plain disjunction. -/
theorem kor_some_some (a b : Bool) : kor (some a) (some b) = some (a || b) := by
  cases a <;> cases b <;> rfl

/-- Claim C4 (amended): the `涨停` and `跌停` flags are mutually exclusive
on every row whose supplied `涨跌幅` column is consistent with its prices
(`涨跌幅 = (收盘/昨收 − 1) × 100`), whose previous close is positive, and
whose rounded limit-up and limit-down prices differ; when the rounded
limit prices coincide (tiny previous closes), or when the supplied
percent-change contradicts the prices, both flags can be true. -/
theorem c4_mutual_exclusive_amended (code name : String) (p c hi pc : ℚ)
    (hp : 0 < p) (hcons : pc = (c / p - 1) * 100)
    (hne : limit_up_price ⟨code, name, some p, c, hi, pc⟩ ≠
           limit_down_price ⟨code, name, some p, c, hi, pc⟩) :
    ¬(zhangting ⟨code, name, some p, c, hi, pc⟩ = some true ∧
      dieting ⟨code, name, some p, c, hi, pc⟩ = some true) := by
  rintro ⟨hz, hd⟩
  have hpct : 0 < limit_pct code name := limit_pct_pos code name
  simp only [ne_eq, limit_up_price, limit_down_price, Option.map_some',
    Option.some.injEq] at hne
  simp only [zhangting, dieting, limit_up_price, limit_down_price, Option.map_some',
    kor_some_some, Option.some.injEq, Bool.or_eq_true] at hz hd
  have hpc : pc * 0.01 = c / p - 1 := by rw [hcons]; ring
  have hz' : limit_pct code name ≤ c / p - 1 ∨
      round2 (p * (1 + limit_pct code name)) = c := by
    rcases hz with h | h
    · left
      by_cases hok : pc * 0.01 ≥ limit_pct code name
      · rw [hpc] at hok; exact hok
      · simp [hok] at h
    · right
      by_cases hok : round2 (p * (1 + limit_pct code name)) = c
      · exact hok
      · simp [hok] at h
  have hd' : c / p - 1 ≤ -limit_pct code name ∨
      round2 (p * (1 - limit_pct code name)) = c := by
    rcases hd with h | h
    · left
      by_cases hok : pc * 0.01 ≤ -limit_pct code name
      · rw [hpc] at hok; exact hok
      · simp [hok] at h
    · right
      by_cases hok : round2 (p * (1 - limit_pct code name)) = c
      · exact hok
      · simp [hok] at h
  have hdu : round2 (p * (1 - limit_pct code name)) ≤
      round2 (p * (1 + limit_pct code name)) :=
    round2_mono (mul_le_mul_of_nonneg_left (by linarith) hp.le)
  rcases hz' with hz1 | hz2 <;> rcases hd' with hd1 | hd2
  · linarith
  · -- close meets the limit-up threshold while sitting on the rounded
    -- limit-down price: the two rounded prices would have to coincide
    have hcge : p * (1 + limit_pct code name) ≤ c := by
      have h2 : 1 + limit_pct code name ≤ c / p := by linarith
      have h3 := (le_div_iff hp).mp h2
      linarith [h3, mul_comm (1 + limit_pct code name) p]
    have h4 : p * (1 + limit_pct code name) ≤
        round2 (p * (1 - limit_pct code name)) := by rw [hd2]; exact hcge
    have h5 := round2_mono h4
    rw [round2_round2] at h5
    exact hne (le_antisymm h5 hdu)
  · -- close sits on the rounded limit-up price while being at or below
    -- the limit-down threshold: symmetric to the previous case
    have hcle : c ≤ p * (1 - limit_pct code name) := by
      have h2 : c / p ≤ 1 - limit_pct code name := by linarith
      have h3 := (div_le_iff hp).mp h2
      linarith [h3, mul_comm (1 - limit_pct code name) p]
    have h4 : round2 (p * (1 + limit_pct code name)) ≤
        p * (1 - limit_pct code name) := by rw [← hz2] at hcle; exact hcle
    have h5 := round2_mono h4
    rw [round2_round2] at h5
    exact hne (le_antisymm h5 hdu)
  · exact hne (hz2.trans hd2.symm)

/-- Witness for `c4_mutual_exclusive_amended` at a concrete main-board
row: previous close 10, close 11, supplied percent change 10. -/
theorem c4_mutual_exclusive_amended_witness :
    ¬(zhangting ⟨"600000", "PA", some 10, 11, 11, 10⟩ = some true ∧
      dieting ⟨"600000", "PA", some 10, 11, 11, 10⟩ = some true) := by
  have hpct : limit_pct "600000" "PA" = 1/10 := by
    simp [limit_pct, starts, hasST]; norm_num
  refine c4_mutual_exclusive_amended "600000" "PA" 10 11 11 10 (by norm_num)
    (by norm_num) ?_
  simp only [limit_up_price, limit_down_price, Option.map_some', hpct, round2, round_eq,
    ne_eq, Option.some.injEq]
  norm_num [Int.floor_eq_iff]

/-- Rolling 5-row limit-up count of `calculate_continuous_limit_up_optimized`
(`rolling_sum(window_size=5, min_periods=1)` over the `limit_up` cast of the
`涨停` column): the number of limit-up rows among the five rows ending at and
including row `i` (fewer near the start of the history).  Null `涨停` entries
contribute nothing to the sum; the sum itself is only consulted on rows whose
own flag is `some true`, where it is non-null. -/
def last5_count (flags : List (Option Bool)) (i : Nat) : Nat :=
  ((List.range (min 4 i + 1)).map (fun k => i - k)).countP
    (fun j => flags.getD j none == some true)

/-- Inner loop of `process_group_with_precheck`:
`for j in range(current_pos, window_start - 1, -1)` — scan positions
`j, j-1, …` for a limit-up row, for `fuel` steps, returning the first
(that is, largest) hit.  Natural subtraction clamps at zero, which only
re-examines row 0 and cannot change the result. -/
def scan_down (flags : List (Option Bool)) (j : Nat) : Nat → Option Nat
  | 0 => none
  | n + 1 =>
    if flags.getD j none == some true then some j
    else scan_down flags (j - 1) n

/-- Search of the 5-row window `[max(0, cp-4), cp]` for a limit-up row,
scanning downward from `cp` (`window_start = max(0, current_pos - 4)` in the
source). -/
def find_in_window (flags : List (Option Bool)) (cp : Nat) : Option Nat :=
  scan_down flags cp (min 4 cp + 1)

/-- Backward-chaining loop of `process_group_with_precheck`.  The state is
`(consecutive_count, start_pos, current_pos)`; `cpp` encodes
`current_pos + 1` so that the loop guard `current_pos >= 0` becomes
`cpp ≥ 1`.  On a hit at `j` the pointer jumps to `j - 1`, i.e. `cpp` becomes
`j`.  `fuel` bounds the iteration count structurally; `cpp` strictly
decreases, so `fuel = cpp` is exact (see `walk_back_fuel`). -/
def walk_back (flags : List (Option Bool)) : Nat → Nat → Nat → Nat → Nat × Nat
  | 0, cnt, sp, _ => (cnt, sp)
  | _ + 1, cnt, sp, 0 => (cnt, sp)
  | fuel + 1, cnt, sp, cp + 1 =>
    match find_in_window flags cp with
    | none => (cnt, sp)
    | some j => walk_back flags fuel (cnt + 1) j j

/-- Backward chain walk with its canonical fuel. -/
def walk_exec (flags : List (Option Bool)) (cnt sp cpp : Nat) : Nat × Nat :=
  walk_back flags cpp cnt sp cpp

/-- Board label of `process_group_with_precheck` for row `i`, including the
rolling-count short-circuit: a non-limit-up row is `0天0板`; a limit-up row
whose trailing-5 count is at most 1 is `1天1板`; otherwise the backward walk
starting at `count = 1, start_pos = i, current_pos = i - 1` produces
`{total_days}天{count}板` with `total_days = i - start_pos + 1`. -/
def lianban_label (flags : List (Option Bool)) (i : Nat) : String :=
  if flags.getD i none ≠ some true then "0天0板"
  else if last5_count flags i ≤ 1 then "1天1板"
  else
    let r := walk_exec flags 1 i i
    toString (i - r.2 + 1) ++ "天" ++ toString r.1 ++ "板"

/-- Board label produced by the unoptimised backward scan: the same walk,
but without the rolling-count short-circuit.  This is the reference
behaviour that claim C1 asserts the short-circuit path coincides with. -/
def lianban_label_full (flags : List (Option Bool)) (i : Nat) : String :=
  if flags.getD i none ≠ some true then "0天0板"
  else
    let r := walk_exec flags 1 i i
    toString (i - r.2 + 1) ++ "天" ++ toString r.1 ++ "板"

/-- Claim C1 (code bug, evaluated at the failing input): for the flag
sequence `[T, F, F, F, F, T]` the trailing-5 count of row 5 is 1, so the
short-circuit path labels it `1天1板`; but the full backward walk searches
the window `[0, 4]` (five rows ending at `current_pos = 4`), finds the
limit-up at row 0, and labels the row `6天2板`.  The rolling-count
pre-check window is one row shorter than the walk's first search window,
so the optimisation is not observationally equivalent. -/
theorem c1_precheck_diverges_at_gap4 :
    lianban_label [some true, some false, some false, some false, some false, some true] 5
      = "1天1板" ∧
    lianban_label_full [some true, some false, some false, some false, some false, some true] 5
      = "6天2板" ∧
    lianban_label [some true, some false, some false, some false, some false, some true] 5
      ≠ lianban_label_full
        [some true, some false, some false, some false, some false, some true] 5 := by
  refine ⟨by decide, by decide, by decide⟩

/-- Claim C3 (counterexample): the claim says a preceding limit-up row
separated from the search pointer by at most 5 intervening non-limit-up
rows is included in the chain.  With flags `[T, F, F, F, F, F, T]` the
limit-up at row 0 is separated from row 6 by exactly 5 intervening rows,
so the claim predicts the chain reaches it and row 6 is labelled `7天2板`;
the code searches only the 5 rows `[1, 5]` preceding the pointer, finds
nothing, and labels row 6 `1天1板`. -/
theorem c3_gap5_counterexample :
    lianban_label
      [some true, some false, some false, some false, some false, some false, some true] 6
      = "1天1板" ∧
    lianban_label
      [some true, some false, some false, some false, some false, some false, some true] 6
      ≠ "7天2板" := by
  refine ⟨by decide, by decide⟩

/-- Any result of `scan_down` lies at or below the starting position. -/
theorem scan_down_le (flags : List (Option Bool)) :
    ∀ n j r, scan_down flags j n = some r → r ≤ j := by
  intro n
  induction n with
  | zero => intro j r h; simp [scan_down] at h
  | succ n ih =>
    intro j r h
    unfold scan_down at h
    split at h
    · cases h; exact le_refl _
    · exact le_trans (ih (j - 1) r h) (Nat.sub_le j 1)

/-- If the highest limit-up row at or below `j` within reach of the scan is
`r`, the scan finds exactly `r`. -/
theorem scan_down_finds (flags : List (Option Bool)) (r : Nat)
    (hr : flags.getD r none = some true) :
    ∀ n j, r ≤ j → j < r + n →
      (∀ j2, r < j2 → j2 ≤ j → flags.getD j2 none ≠ some true) →
      scan_down flags j n = some r := by
  intro n
  induction n with
  | zero => intro j h1 h2; omega
  | succ n ih =>
    intro j h1 h2 hno
    unfold scan_down
    rcases Nat.eq_or_lt_of_le h1 with heq | hlt
    · subst heq
      have hb : (flags.getD r none == some true) = true := by rw [hr]; rfl
      rw [hb]
      simp
    · have hj : flags.getD j none ≠ some true := hno j hlt (le_refl j)
      have : (flags.getD j none == some true) = false := by
        simpa using hj
      rw [this]
      simp only [Bool.false_eq_true, if_false]
      exact ih (j - 1) (by omega) (by omega) (fun j2 ha hb => hno j2 ha (by omega))

/-- If no row the scan can reach is a limit-up row, the scan fails. -/
theorem scan_down_none (flags : List (Option Bool)) :
    ∀ n j, (∀ j2, j2 ≤ j → j < j2 + n → flags.getD j2 none ≠ some true) →
      scan_down flags j n = none := by
  intro n
  induction n with
  | zero => intro j _; rfl
  | succ n ih =>
    intro j hno
    unfold scan_down
    have hj : flags.getD j none ≠ some true := hno j (le_refl j) (by omega)
    have hb : (flags.getD j none == some true) = false := by simpa using hj
    rw [hb]
    simp only [Bool.false_eq_true, if_false]
    exact ih (j - 1) (fun j2 ha hb2 => hno j2 (by omega) (by omega))

/-- Results of the window search lie at or below the pointer. -/
theorem find_in_window_le (flags : List (Option Bool)) (cp r : Nat)
    (h : find_in_window flags cp = some r) : r ≤ cp :=
  scan_down_le flags _ cp r h

/-- Running the backward walk with any fuel at least `cpp` is the same as
running it with fuel exactly `cpp`: the pointer encoding strictly
decreases, so `cpp` iterations always suffice. -/
theorem walk_back_fuel (flags : List (Option Bool)) :
    ∀ f c s cpp, cpp ≤ f → walk_back flags f c s cpp = walk_back flags cpp c s cpp := by
  intro f
  induction f using Nat.strong_induction_on with
  | _ f ih =>
    intro c s cpp hle
    match f, cpp with
    | 0, cpp =>
      have : cpp = 0 := Nat.le_zero.mp hle
      subst this; rfl
    | f + 1, 0 => rfl
    | f + 1, cp + 1 =>
      unfold walk_back
      cases hfind : find_in_window flags cp with
      | none => rfl
      | some j =>
        have hj : j ≤ cp := find_in_window_le flags cp j hfind
        have h1 : walk_back flags f (c + 1) j j = walk_back flags j (c + 1) j j :=
          ih f (by omega) (c + 1) j j (by omega)
        have h2 : walk_back flags cp (c + 1) j j = walk_back flags j (c + 1) j j :=
          ih cp (by omega) (c + 1) j j hj
        show walk_back flags f (c + 1) j j = walk_back flags cp (c + 1) j j
        rw [h1, h2]

/-- Claim C3 (amended): one step of the backward chain from pointer
position `current_pos = cp` behaves as follows.  If the nearest preceding
limit-up row `j` is separated from the pointer by at most 4 intervening
non-limit-up rows — equivalently, lies within the 5-row window
`[cp-4, cp]` — it is included in the chain: the board count increments and
the pointer jumps to `j`.  The chain stops exactly when no limit-up row
exists in that trailing 5-row window.  (The original claim's "at most 5
intervening rows" overstates the window by one, as
`c3_gap5_counterexample` shows.) -/
theorem c3_backward_chain_amended (flags : List (Option Bool)) (cp c s j : Nat) :
    (flags.getD j none = some true → j ≤ cp → cp ≤ j + 4 →
      (∀ j2, j < j2 → j2 ≤ cp → flags.getD j2 none ≠ some true) →
      walk_exec flags c s (cp + 1) = walk_exec flags (c + 1) j j) ∧
    ((∀ j2, j2 ≤ cp → cp ≤ j2 + 4 → flags.getD j2 none ≠ some true) →
      walk_exec flags c s (cp + 1) = (c, s)) := by
  constructor
  · intro hj h1 h2 hno
    have hfind : find_in_window flags cp = some j := by
      unfold find_in_window
      exact scan_down_finds flags j hj (min 4 cp + 1) cp h1 (by omega) hno
    unfold walk_exec
    conv_lhs => rw [walk_back]
    rw [hfind]
    exact walk_back_fuel flags cp (c + 1) j j (find_in_window_le flags cp j hfind)
  · intro hno
    have hfind : find_in_window flags cp = none := by
      unfold find_in_window
      exact scan_down_none flags (min 4 cp + 1) cp (fun j2 ha hb => hno j2 ha (by omega))
    unfold walk_exec
    conv_lhs => rw [walk_back]
    rw [hfind]

/-- Witness for `c3_backward_chain_amended`: with flags `[T, T]` a step
from pointer 0 absorbs the limit-up at row 0; with flags `[T, F, …, F, T]`
a step from pointer 5 (five non-limit rows in the window) stops the
chain. -/
theorem c3_backward_chain_amended_witness :
    walk_exec [some true, some true] 1 1 1 = walk_exec [some true, some true] 2 0 0 ∧
    walk_exec [some true, some false, some false, some false, some false, some false] 1 5 6
      = (1, 5) := by
  constructor
  · exact (c3_backward_chain_amended [some true, some true] 0 1 1 0).1
      (by decide) (by decide) (by decide) (by intro j2 h1 h2; omega)
  · exact (c3_backward_chain_amended
      [some true, some false, some false, some false, some false, some false] 5 1 5 5).2
      (by decide)

/-- Column `is_limit_changed` of `calculate_continuous_limit_up_optimized`
over the nullable `涨停` column:
`(涨停 != 涨停.shift(1, fill_value=False)).cast(Int32)`.  The shift's
`fill_value` covers only the shifted-in slot of row 0, so row 0 compares
against a non-null `False`; polars `!=` propagates a null operand, so the
result is null whenever the row's own flag, or (for later rows) the
previous row's flag, is null. -/
def is_limit_changed (flags : List (Option Bool)) (i : Nat) : Option Nat :=
  match flags.getD i none, (if i = 0 then some false else flags.getD (i - 1) none) with
  | some a, some b => some (if a ≠ b then 1 else 0)
  | _, _ => none

/-- Running total of the non-null `is_limit_changed` values up to and
including row `i` — the accumulator of polars `cum_sum`, which skips null
inputs. -/
def changed_cumsum (flags : List (Option Bool)) : Nat → Nat
  | 0 => (is_limit_changed flags 0).getD 0
  | i + 1 => changed_cumsum flags i + (is_limit_changed flags (i + 1)).getD 0

/-- Column `limit_group`: `is_limit_changed.cumsum().over('名称')`.
Polars `cum_sum` emits null at null input positions and carries the
running total across them. -/
def limit_group (flags : List (Option Bool)) (i : Nat) : Option Nat :=
  (is_limit_changed flags i).map (fun _ => changed_cumsum flags i)

/-- Column `连板数`: `pl.when(涨停).then(int_range(0, count).over([名称,
limit_group]) + 1).otherwise(0)`.  A null `涨停` predicate propagates
(`when` takes the otherwise-branch only on false), a false flag gives 0,
and a true flag gives one plus the row's position inside its `limit_group`
window partition — the number of earlier rows with the same group key,
where polars groups null keys together (`none == none` is true below). -/
def lianban_count (flags : List (Option Bool)) (i : Nat) : Option Nat :=
  match flags.getD i none with
  | some true => some ((List.range i).countP
      (fun j => limit_group flags j == limit_group flags i) + 1)
  | some false => some 0
  | none => none

/-- Claim C5 (counterexample): the claim says a symbol's first row is
always classified with `is_limit_up` false, for all field values including
a supplied daily percentage-change value.  But the `涨停` condition's left
disjunct `涨跌幅 * 0.01 >= 涨跌幅限制` uses only the supplied `涨跌幅`
column, which needs no previous close: a first row carrying `涨跌幅 = 10`
on a 10%-limit stock is classified limit-up (`some true`, hence not
false). -/
theorem c5_first_row_counterexample :
    zhangting ⟨"600000", "PA", none, 11, 11, 10⟩ = some true ∧
    zhangting ⟨"600000", "PA", none, 11, 11, 10⟩ ≠ some false := by
  have hpct : limit_pct "600000" "PA" = 1/10 := by
    simp [limit_pct, starts, hasST]; norm_num
  have h : zhangting ⟨"600000", "PA", none, 11, 11, 10⟩ = some true := by
    simp only [zhangting, limit_up_price, hpct, Option.map_none']
    norm_num [kor]
  exact ⟨h, by rw [h]; decide⟩

/-- Claim C5 (amended): a symbol's first row (null previous close) whose
supplied percentage change is below its limit gets a null — not false —
`涨停` flag (polars Kleene `false | null = null`).  The null propagates
into the derived columns: the `连板数` value of that row is null as well
(`pl.when` with a null predicate emits null, not the otherwise-branch 0),
and the board label is the sentinel `0天0板` because the label loop treats
the non-true flag as non-limit — whatever rows follow; no error is raised
(the embedding is total).  When the supplied percentage change meets the
limit, however, the first row is classified limit-up. -/
theorem c5_first_row_amended (code name : String) (c hi pc : ℚ)
    (rest : List (Option Bool)) (h : pc * 0.01 < limit_pct code name) :
    zhangting ⟨code, name, none, c, hi, pc⟩ = none ∧
    lianban_count (zhangting ⟨code, name, none, c, hi, pc⟩ :: rest) 0 = none ∧
    lianban_label (zhangting ⟨code, name, none, c, hi, pc⟩ :: rest) 0 = "0天0板" := by
  have hz : zhangting ⟨code, name, none, c, hi, pc⟩ = none := by
    simp only [zhangting, limit_up_price, Option.map_none']
    have : ¬(pc * 0.01 ≥ limit_pct code name) := not_le.mpr h
    rw [if_neg this]
    rfl
  refine ⟨hz, ?_, ?_⟩
  · rw [hz]; rfl
  · rw [lianban_label]
    rw [if_pos]
    simp [hz]

/-- Witness for `c5_first_row_amended`: a first row with supplied
percentage change 3 on a 10%-limit stock. -/
theorem c5_first_row_amended_witness :
    zhangting ⟨"600000", "PA", none, 5, 5, 3⟩ = none ∧
    lianban_count (zhangting ⟨"600000", "PA", none, 5, 5, 3⟩ :: [some true]) 0 = none ∧
    lianban_label (zhangting ⟨"600000", "PA", none, 5, 5, 3⟩ :: [some true]) 0 = "0天0板" := by
  refine c5_first_row_amended "600000" "PA" 5 5 3 [some true] ?_
  have hpct : limit_pct "600000" "PA" = 1/10 := by
    simp [limit_pct, starts, hasST]; norm_num
  rw [hpct]; norm_num

/-- Null-free restriction of `is_limit_changed`: the same column on a flag
sequence without nulls.  Used only to relate the group machinery to the
reference streak counter on null-free columns. -/
def is_limit_changed_nf (flags : List Bool) (i : Nat) : Nat :=
  if flags.getD i false ≠ (if i = 0 then false else flags.getD (i - 1) false) then 1 else 0

/-- Null-free restriction of `limit_group`: the plain running `cumsum` of
`is_limit_changed_nf` over the symbol, including the current row. -/
def limit_group_nf (flags : List Bool) : Nat → Nat
  | 0 => is_limit_changed_nf flags 0
  | i + 1 => limit_group_nf flags i + is_limit_changed_nf flags (i + 1)

/-- Null-free restriction of `lianban_count`: on a limit-up row, one plus
the row's position inside its limit group (the number of earlier rows
sharing its `limit_group_nf` value); zero otherwise. -/
def lianban_count_nf (flags : List Bool) (i : Nat) : Nat :=
  if flags.getD i false then
    (List.range i).countP (fun j => limit_group_nf flags j == limit_group_nf flags i) + 1
  else 0

/-- Specification-side streak counter: increments by one on each limit-up
row, resets to zero on any other row.  This is the reference reading of
claim C6: it equals `k` on the `k`-th row of a maximal run of limit-up
rows and `0` elsewhere. -/
def spec_streak (flags : List Bool) : Nat → Nat
  | 0 => if flags.getD 0 false then 1 else 0
  | i + 1 => if flags.getD (i + 1) false then spec_streak flags i + 1 else 0

/-- Limit-group values never decrease along the rows. -/
theorem limit_group_nf_mono (flags : List Bool) :
    ∀ {i j : Nat}, i ≤ j → limit_group_nf flags i ≤ limit_group_nf flags j := by
  intro i j h
  induction j with
  | zero =>
    have : i = 0 := Nat.le_zero.mp h
    subst this; exact le_refl _
  | succ j ih =>
    rcases Nat.eq_or_lt_of_le h with heq | hlt
    · subst heq; exact le_refl _
    · exact le_trans (ih (by omega)) (Nat.le_add_right _ _)

/-- `spec_streak` vanishes on non-limit-up rows. -/
theorem spec_streak_eq_zero (flags : List Bool) (i : Nat)
    (h : flags.getD i false = false) : spec_streak flags i = 0 := by
  rw [List.getD_eq_getElem?_getD] at h
  cases i <;> simp [spec_streak, h]

/-- Null-free case of the streak equivalence: on a boolean flag column the
group-number machinery computes exactly the increment-on-limit-up /
reset-on-other-rows counter. -/
theorem lianban_count_nf_spec (flags : List Bool) (i : Nat) :
    lianban_count_nf flags i = spec_streak flags i := by
  induction i with
  | zero =>
    simp [lianban_count_nf, spec_streak]
  | succ i ih =>
    cases hcur : flags.getD (i + 1) false with
    | false =>
      have hcur2 := hcur
      rw [List.getD_eq_getElem?_getD] at hcur2
      simp [lianban_count_nf, spec_streak, hcur2]
    | true =>
      cases hprev : flags.getD i false with
      | true =>
        -- inside a run: the group number is unchanged, so the position
        -- within the group grows by one
        have hch : is_limit_changed_nf flags (i + 1) = 0 := by
          have hcur2 := hcur
          have hprev2 := hprev
          rw [List.getD_eq_getElem?_getD] at hcur2 hprev2
          simp [is_limit_changed_nf, hcur2, hprev2]
        have hg : limit_group_nf flags (i + 1) = limit_group_nf flags i := by
          simp [limit_group_nf, hch]
        have hcount : (List.range (i + 1)).countP
            (fun j => limit_group_nf flags j == limit_group_nf flags (i + 1))
            = (List.range i).countP
                (fun j => limit_group_nf flags j == limit_group_nf flags i) + 1 := by
          rw [List.range_succ, List.countP_append]
          simp [hg]
        rw [lianban_count_nf, if_pos hcur, hcount, spec_streak, if_pos hcur]
        rw [lianban_count_nf, if_pos hprev] at ih
        omega
      | false =>
        -- run start: the group number strictly increases, so no earlier
        -- row shares it and the position within the group is zero
        have hch : is_limit_changed_nf flags (i + 1) = 1 := by
          have hcur2 := hcur
          have hprev2 := hprev
          rw [List.getD_eq_getElem?_getD] at hcur2 hprev2
          simp [is_limit_changed_nf, hcur2, hprev2]
        have hg : limit_group_nf flags (i + 1) = limit_group_nf flags i + 1 := by
          simp [limit_group_nf, hch]
        have hcount : (List.range (i + 1)).countP
            (fun j => limit_group_nf flags j == limit_group_nf flags (i + 1)) = 0 := by
          rw [List.countP_eq_zero]
          intro j hj
          have hjle : j ≤ i := by
            have := List.mem_range.mp hj; omega
          have := limit_group_nf_mono flags hjle
          simp only [beq_iff_eq]
          omega
        rw [lianban_count_nf, if_pos hcur, hcount, spec_streak, if_pos hcur]
        rw [spec_streak_eq_zero flags i hprev]

/-- Reading a null-free flag column returns the underlying boolean. -/
theorem map_some_getD (flags : List Bool) (j : Nat) (hj : j < flags.length) :
    (flags.map some).getD j none = some (flags.getD j false) := by
  rw [List.getD_eq_getElem?_getD, List.getD_eq_getElem?_getD, List.getElem?_map,
    List.getElem?_eq_getElem hj]
  rfl

/-- On a null-free flag column `is_limit_changed` never emits null and
agrees with its null-free restriction. -/
theorem is_limit_changed_map (flags : List Bool) (i : Nat) (hi : i < flags.length) :
    is_limit_changed (flags.map some) i = some (is_limit_changed_nf flags i) := by
  unfold is_limit_changed is_limit_changed_nf
  rcases Nat.eq_zero_or_pos i with h0 | hpos
  · subst h0
    rw [map_some_getD flags 0 hi]
    simp
  · have h1 : i - 1 < flags.length := by omega
    have hne : i ≠ 0 := by omega
    rw [map_some_getD flags i hi, if_neg hne, if_neg hne, map_some_getD flags (i - 1) h1]

/-- On a null-free flag column the `cum_sum` accumulator agrees with the
null-free group number. -/
theorem changed_cumsum_map (flags : List Bool) :
    ∀ i, i < flags.length → changed_cumsum (flags.map some) i = limit_group_nf flags i := by
  intro i
  induction i with
  | zero =>
    intro hi
    unfold changed_cumsum limit_group_nf
    rw [is_limit_changed_map flags 0 hi]
    rfl
  | succ i ih =>
    intro hi
    unfold changed_cumsum limit_group_nf
    rw [is_limit_changed_map flags (i + 1) hi, ih (by omega)]
    rfl

/-- On a null-free flag column the group id is never null and agrees with
the null-free group number. -/
theorem limit_group_map (flags : List Bool) (j : Nat) (hj : j < flags.length) :
    limit_group (flags.map some) j = some (limit_group_nf flags j) := by
  unfold limit_group
  rw [is_limit_changed_map flags j hj, changed_cumsum_map flags j hj]
  rfl

/-- On a null-free flag column the nullable `连板数` computation reduces
to its null-free restriction. -/
theorem lianban_count_map (flags : List Bool) (i : Nat) (hi : i < flags.length) :
    lianban_count (flags.map some) i = some (lianban_count_nf flags i) := by
  unfold lianban_count lianban_count_nf
  rw [map_some_getD flags i hi]
  cases hf : flags.getD i false with
  | false => rfl
  | true =>
    have hcong : ∀ j ∈ List.range i,
        ((limit_group (flags.map some) j == limit_group (flags.map some) i) = true ↔
          (limit_group_nf flags j == limit_group_nf flags i) = true) := by
      intro j hj
      have hji : j < i := List.mem_range.mp hj
      rw [limit_group_map flags j (by omega), limit_group_map flags i hi]
      exact Iff.rfl
    have hcount := List.countP_congr hcong
    simp [hcount]

/-- Claim C6 (counterexample): the claim quantifies over every per-symbol
row sequence, but the `涨停` column is null on a symbol's first row
whenever no previous close exists and the supplied percent change is below
the limit.  On flags `[null, T, T]` the null propagates:
`is_limit_changed` is `[null, null, 0]`, `limit_group` is `[null, null,
0]`, rows 0 and 1 share the null-keyed window partition, and `连板数`
comes out 2 on the first row of the run and 1 on the second — the claim
requires 1 then 2. -/
theorem c6_null_first_row_counterexample :
    lianban_count [none, some true, some true] 1 = some 2 ∧
    lianban_count [none, some true, some true] 2 = some 1 ∧
    lianban_count [none, some true, some true] 1 ≠ some 1 := by
  refine ⟨by decide, by decide, by decide⟩

/-- Claim C6 (amended): on every per-symbol row sequence whose `涨停` flag
column is null-free, the `连板数` counter equals `k` on the `k`-th row of
any maximal run of consecutive limit-up rows and equals `0` on every row
whose flag is false — in particular on the row immediately following such
a run.  (With a null first-row flag the group machinery is offset, as
`c6_null_first_row_counterexample` shows.) -/
theorem c6_streak_spec_equiv_amended (flags : List Bool) (i : Nat)
    (hi : i < flags.length) :
    lianban_count (flags.map some) i = some (spec_streak flags i) := by
  rw [lianban_count_map flags i hi, lianban_count_nf_spec flags i]

/-- Witness for `c6_streak_spec_equiv_amended` on the null-free flag
column `[T, T, F]`: the second row of the run has counter 2. -/
theorem c6_streak_spec_equiv_amended_witness :
    lianban_count ([true, true, false].map some) 1 = some 2 := by
  rw [c6_streak_spec_equiv_amended [true, true, false] 1 (by decide)]
  decide

/-- Per-symbol close column shifted by `p` rows
(`pl.col('收盘').shift(P).over('名称')`): null while fewer than `p` prior
rows exist. -/
def shifted_close (p : Nat) (xs : List ℚ) (i : Nat) : Option ℚ :=
  if p ≤ i then xs[i - p]? else none

/-- Column `{P}日涨跌幅` of `calculate_stock_indicators`:
`((收盘 / 收盘.shift(P) - 1) * 100).round(2)`, null when the shifted close
is null. -/
def ret_period (p : Nat) (xs : List ℚ) (i : Nat) : Option ℚ :=
  match xs[i]?, shifted_close p xs i with
  | some c, some c0 => some (round2 ((c / c0 - 1) * 100))
  | _, _ => none

/-- Claim C9: for every per-symbol date-ordered close sequence and every
period P ∈ {5, 10, 20}, the multi-period return of row `i` equals
`round((close_i / close_{i-P} - 1) × 100, 2)` when at least P prior rows
exist, and is null when fewer than P prior rows exist. -/
theorem c9_multi_period_returns (p : Nat) (hp : p = 5 ∨ p = 10 ∨ p = 20)
    (xs : List ℚ) (i : Nat) (hi : i < xs.length) :
    (p ≤ i → ret_period p xs i =
      some (round2 ((xs.getD i 0 / xs.getD (i - p) 0 - 1) * 100))) ∧
    (i < p → ret_period p xs i = none) := by
  constructor
  · intro hpi
    have h2 : i - p < xs.length := by omega
    have e1 : xs[i]? = some (xs.getD i 0) := by
      rw [List.getElem?_eq_getElem hi]
      simp [List.getD_eq_getElem?_getD, List.getElem?_eq_getElem hi]
    have e2 : xs[i - p]? = some (xs.getD (i - p) 0) := by
      rw [List.getElem?_eq_getElem h2]
      simp [List.getD_eq_getElem?_getD, List.getElem?_eq_getElem h2]
    unfold ret_period shifted_close
    rw [if_pos hpi, e1, e2]
  · intro hip
    unfold ret_period shifted_close
    rw [if_neg (by omega)]
    cases xs[i]? <;> rfl

/-- Witness for `c9_multi_period_returns`: on the close sequence
`[1, 2, 3, 4, 5, 6]` the 5-day return of row 5 is
`round((6/1 - 1) × 100, 2) = 500`, and row 3 has no 5-day return. -/
theorem c9_multi_period_returns_witness :
    ret_period 5 [1, 2, 3, 4, 5, 6] 5 = some 500 ∧
    ret_period 5 [1, 2, 3, 4, 5, 6] 3 = none := by
  constructor
  · rw [(c9_multi_period_returns 5 (Or.inl rfl) [1, 2, 3, 4, 5, 6] 5 (by norm_num)).1
      (by norm_num)]
    norm_num [round2, round_eq, Int.floor_eq_iff]
  · exact (c9_multi_period_returns 5 (Or.inl rfl) [1, 2, 3, 4, 5, 6] 3 (by norm_num)).2
      (by norm_num)

/-- Column `阳线` of `add_candlestick_trend_streaks`: `收盘 > 开盘`.
Rows are `(开盘, 收盘)` pairs. -/
def yang (bars : List (ℚ × ℚ)) (i : Nat) : Bool :=
  if (bars.getD i (0, 0)).2 > (bars.getD i (0, 0)).1 then true else false

/-- Column `阴线`: `收盘 < 开盘`. -/
def yin (bars : List (ℚ × ℚ)) (i : Nat) : Bool :=
  if (bars.getD i (0, 0)).2 < (bars.getD i (0, 0)).1 then true else false

/-- Column `连阳天数`, the loop of `_calc_streaks`:
`up_streak[i] = (up_streak[i-1] + 1) if pos[i] and i > 0 else (1 if pos[i]
else 0)`, kept as the `Int32` the source casts to. -/
def up_streak (bars : List (ℚ × ℚ)) : Nat → Int
  | 0 => if yang bars 0 then 1 else 0
  | i + 1 => if yang bars (i + 1) then up_streak bars i + 1 else 0

/-- Column `连阴天数`, the symmetric loop on `阴线`. -/
def down_streak (bars : List (ℚ × ℚ)) : Nat → Int
  | 0 => if yin bars 0 then 1 else 0
  | i + 1 => if yin bars (i + 1) then down_streak bars i + 1 else 0

/-- Candle streak counters are never negative. -/
theorem up_streak_nonneg (bars : List (ℚ × ℚ)) : ∀ i, 0 ≤ up_streak bars i := by
  intro i
  induction i with
  | zero => cases hy : yang bars 0 <;> simp [up_streak, hy]
  | succ i ih =>
    cases hy : yang bars (i + 1) <;> simp [up_streak, hy]
    omega

/-- Down-streak counterpart of `up_streak_nonneg`. -/
theorem down_streak_nonneg (bars : List (ℚ × ℚ)) : ∀ i, 0 ≤ down_streak bars i := by
  intro i
  induction i with
  | zero => cases hy : yin bars 0 <;> simp [down_streak, hy]
  | succ i ih =>
    cases hy : yin bars (i + 1) <;> simp [down_streak, hy]
    omega

/-- Boolean `阳线` flag unfolded to its defining comparison. -/
theorem yang_iff (bars : List (ℚ × ℚ)) (i : Nat) :
    yang bars i = true ↔ (bars.getD i (0, 0)).1 < (bars.getD i (0, 0)).2 := by
  unfold yang
  by_cases h : (bars.getD i (0, 0)).2 > (bars.getD i (0, 0)).1
  · rw [if_pos h]; simpa using h
  · rw [if_neg h]; simpa using h

/-- Boolean `阴线` flag unfolded to its defining comparison. -/
theorem yin_iff (bars : List (ℚ × ℚ)) (i : Nat) :
    yin bars i = true ↔ (bars.getD i (0, 0)).2 < (bars.getD i (0, 0)).1 := by
  unfold yin
  by_cases h : (bars.getD i (0, 0)).2 < (bars.getD i (0, 0)).1
  · rw [if_pos h]; simpa using h
  · rw [if_neg h]; simpa using h

/-- A positive up-streak forces the current row to be an up candle. -/
theorem up_streak_pos_yang (bars : List (ℚ × ℚ)) (i : Nat)
    (h : 0 < up_streak bars i) : yang bars i = true := by
  cases i with
  | zero =>
    cases hy : yang bars 0
    · simp [up_streak, hy] at h
    · rfl
  | succ i =>
    cases hy : yang bars (i + 1)
    · simp [up_streak, hy] at h
    · rfl

/-- A positive down-streak forces the current row to be a down candle. -/
theorem down_streak_pos_yin (bars : List (ℚ × ℚ)) (i : Nat)
    (h : 0 < down_streak bars i) : yin bars i = true := by
  cases i with
  | zero =>
    cases hy : yin bars 0
    · simp [down_streak, hy] at h
    · rfl
  | succ i =>
    cases hy : yin bars (i + 1)
    · simp [down_streak, hy] at h
    · rfl

/-- Claim C10: on every row at most one of the candle-streak counters
`连阳天数` and `连阴天数` is positive, both are always non-negative, and
on a row whose close equals its open both are exactly zero. -/
theorem c10_candle_streaks (bars : List (ℚ × ℚ)) (i : Nat) :
    ¬(0 < up_streak bars i ∧ 0 < down_streak bars i) ∧
    0 ≤ up_streak bars i ∧ 0 ≤ down_streak bars i ∧
    ((bars.getD i (0, 0)).2 = (bars.getD i (0, 0)).1 →
      up_streak bars i = 0 ∧ down_streak bars i = 0) := by
  refine ⟨?_, up_streak_nonneg bars i, down_streak_nonneg bars i, ?_⟩
  · rintro ⟨hu, hd⟩
    have h1 := up_streak_pos_yang bars i hu
    have h2 := down_streak_pos_yin bars i hd
    rw [yang_iff] at h1
    rw [yin_iff] at h2
    exact absurd h2 (not_lt.mpr h1.le)
  · intro heq
    have hy : yang bars i = false := by
      unfold yang
      rw [if_neg (by rw [heq]; exact lt_irrefl _)]
    have hn : yin bars i = false := by
      unfold yin
      rw [if_neg (by rw [heq]; exact lt_irrefl _)]
    constructor
    · cases i with
      | zero => simp [up_streak, hy]
      | succ n => simp [up_streak, hy]
    · cases i with
      | zero => simp [down_streak, hn]
      | succ n => simp [down_streak, hn]

/-- Witness for `c10_candle_streaks` at a concrete two-row history whose
second row has close equal to open. -/
theorem c10_candle_streaks_witness :
    ¬(0 < up_streak [(1, 2), (3, 3)] 1 ∧ 0 < down_streak [(1, 2), (3, 3)] 1) ∧
    0 ≤ up_streak [(1, 2), (3, 3)] 1 ∧ 0 ≤ down_streak [(1, 2), (3, 3)] 1 ∧
    (((([(1, 2), (3, 3)] : List (ℚ × ℚ)).getD 1 (0, 0)).2 =
        (([(1, 2), (3, 3)] : List (ℚ × ℚ)).getD 1 (0, 0)).1) →
      up_streak [(1, 2), (3, 3)] 1 = 0 ∧ down_streak [(1, 2), (3, 3)] 1 = 0) :=
  c10_candle_streaks [(1, 2), (3, 3)] 1

/-- Raw daily bar of one symbol as read from the stock metadata file
(`load_stock_metadata`), before any derived column is computed.  Dates are
abstracted to naturals; ordering by date models `sort(['名称', '日期'])`
within one symbol. -/
structure RawBar where
  code : String
  name : String
  dte : Nat
  openP : ℚ
  closeP : ℚ
  highP : ℚ
  pctChange : ℚ
deriving Inhabited

/-- Insertion step of the date sort. -/
def insert_by_date (b : RawBar) : List RawBar → List RawBar
  | [] => [b]
  | x :: xs => if b.dte ≤ x.dte then b :: x :: xs else x :: insert_by_date b xs

/-- Per-symbol `df.sort(['名称', '日期'])`, as an insertion sort on the
date key. -/
def sort_bars : List RawBar → List RawBar
  | [] => []
  | b :: bs => insert_by_date b (sort_bars bs)

/-- Row `i` of a sorted per-symbol history as a `compute_limits` input row:
the `昨收` column is the close shifted by one row, null on row 0. -/
def bar_row_at (bars : List RawBar) (i : Nat) : BarRow :=
  { code := (bars.getD i default).code
    name := (bars.getD i default).name
    prevClose := if 1 ≤ i then some ((bars.getD (i - 1) default).closeP) else none
    closeP := (bars.getD i default).closeP
    highP := (bars.getD i default).highP
    pctChange := (bars.getD i default).pctChange }

/-- Per-symbol `涨停` column over a sorted history. -/
def flags_of (bars : List RawBar) : List (Option Bool) :=
  (List.range bars.length).map (fun i => zhangting (bar_row_at bars i))

/-- One persisted row of the market-states snapshot (the columns the
claims in this development depend on). -/
structure DerivedRow where
  dte : Nat
  flag : Option Bool
  label : String

/-- Snapshot content computed from one symbol's raw history: sort by
date, compute the `涨停` flags and the board labels. -/
def derive_states (bars : List RawBar) : List DerivedRow :=
  let sorted := sort_bars bars
  let flags := flags_of sorted
  (List.range sorted.length).map (fun i =>
    { dte := (sorted.getD i default).dte
      flag := flags.getD i none
      label := lianban_label flags i })

/-- Key-deduplication of `stock_data.unique(subset=['日期', '名称'])` for a
single symbol: keep one row per date. -/
def dedup_by_key (seen : List Nat) : List DerivedRow → List DerivedRow
  | [] => []
  | r :: rs =>
    if r.dte ∈ seen then dedup_by_key seen rs
    else r :: dedup_by_key (r.dte :: seen) rs

/-- Embedding of the existing-snapshot branch of
`update_market_states_incremental`: the existing snapshot is read only to
log its latest date; the new snapshot content is recomputed wholesale from
the stock metadata (`compute_limits`, the streak/label pass, indicators),
deduplicated by the (日期, 名称) key, and written over the old file.  The
`existing` argument therefore does not influence the output. -/
def update_market_states_incremental (existing : List DerivedRow)
    (stock_data : List RawBar) : List DerivedRow :=
  dedup_by_key [] (derive_states stock_data)

/-- Claim C7: the incremental merge is idempotent — applying it a second
time with the same batch of stock rows leaves the snapshot content
unchanged, because the merge recomputes the snapshot deterministically
from the stock metadata and does not depend on the previous snapshot
content. -/
theorem c7_merge_idempotent (s : List DerivedRow) (batch : List RawBar) :
    update_market_states_incremental (update_market_states_incremental s batch) batch
      = update_market_states_incremental s batch := rfl

/-- Outcome of one write attempt inside `safe_write_parquet`: the
temporary-file write may raise, the atomic rename may raise, or the
attempt commits. -/
inductive WriteOutcome where
  | writeFail
  | renameFail
  | committed

/-- Retry loop of `safe_write_parquet`: each failed attempt leaves the
target untouched (the temp file is cleaned up and the loop retries); a
committed attempt atomically replaces the target with the new content and
returns success; exhausting the attempts returns failure.  The pair is
`(return value, target-file content)`. -/
def safe_write_loop (tgt : Option (List DerivedRow)) (d : List DerivedRow) :
    Nat → List WriteOutcome → Bool × Option (List DerivedRow)
  | 0, _ => (false, tgt)
  | _ + 1, [] => (false, tgt)
  | fuel + 1, o :: rest =>
    match o with
    | .committed => (true, some d)
    | _ => safe_write_loop tgt d fuel rest

/-- Embedding of `safe_write_parquet` with `max_retries = 3`: an empty
frame is rejected without touching the target; otherwise the retry loop
runs, driven by the injected attempt outcomes. -/
def safe_write_parquet (tgt : Option (List DerivedRow)) (d : List DerivedRow)
    (isEmpty : Bool) (outs : List WriteOutcome) : Bool × Option (List DerivedRow) :=
  if isEmpty then (false, tgt) else safe_write_loop tgt d 3 outs

/-- Embedding of `create_limit_status_parquet`: compute the snapshot
content, write it with `safe_write_parquet`, and raise
(`Except.error`) when the write reports failure. -/
def create_limit_status_parquet (bars : List RawBar)
    (tgt : Option (List DerivedRow)) (outs : List WriteOutcome) :
    Except String (List DerivedRow) × Option (List DerivedRow) :=
  let d := derive_states bars
  match safe_write_parquet tgt d bars.isEmpty outs with
  | (true, t) => (Except.ok d, t)
  | (false, t) => (Except.error "写入市场状态数据文件失败", t)

/-- Failure of the retry loop leaves the target untouched; success leaves
exactly the new content there. -/
theorem safe_write_loop_cases (tgt : Option (List DerivedRow)) (d : List DerivedRow) :
    ∀ fuel outs,
      ((safe_write_loop tgt d fuel outs).1 = false →
        (safe_write_loop tgt d fuel outs).2 = tgt) ∧
      ((safe_write_loop tgt d fuel outs).1 = true →
        (safe_write_loop tgt d fuel outs).2 = some d) := by
  intro fuel
  induction fuel with
  | zero => intro outs; exact ⟨fun _ => rfl, fun h => by simp [safe_write_loop] at h⟩
  | succ fuel ih =>
    intro outs
    cases outs with
    | nil => exact ⟨fun _ => rfl, fun h => by simp [safe_write_loop] at h⟩
    | cons o rest =>
      cases o with
      | committed => exact ⟨fun h => by simp [safe_write_loop] at h, fun _ => rfl⟩
      | writeFail => exact ih rest
      | renameFail => exact ih rest

/-- Claim C8: snapshot persistence is atomic with respect to failure.
When `safe_write_parquet` reports failure the previously persisted
snapshot is untouched; when it reports success the target holds exactly
the newly written content — the target never holds anything else, and in
particular never a partial write.  `create_limit_status_parquet` surfaces
a failed write to its caller as a raised error, with the prior snapshot
still in place. -/
theorem c8_atomic_write (tgt : Option (List DerivedRow)) (d : List DerivedRow)
    (em : Bool) (outs : List WriteOutcome) (bars : List RawBar) :
    ((safe_write_parquet tgt d em outs).1 = false →
      (safe_write_parquet tgt d em outs).2 = tgt) ∧
    ((safe_write_parquet tgt d em outs).1 = true →
      (safe_write_parquet tgt d em outs).2 = some d) ∧
    ((safe_write_parquet tgt (derive_states bars) bars.isEmpty outs).1 = false →
      (create_limit_status_parquet bars tgt outs).1 =
        Except.error "写入市场状态数据文件失败" ∧
      (create_limit_status_parquet bars tgt outs).2 = tgt) := by
  have hgen : ∀ (d2 : List DerivedRow) (em2 : Bool),
      ((safe_write_parquet tgt d2 em2 outs).1 = false →
        (safe_write_parquet tgt d2 em2 outs).2 = tgt) ∧
      ((safe_write_parquet tgt d2 em2 outs).1 = true →
        (safe_write_parquet tgt d2 em2 outs).2 = some d2) := by
    intro d2 em2
    cases em2 with
    | false =>
      simp only [safe_write_parquet, Bool.false_eq_true, if_false]
      exact safe_write_loop_cases tgt d2 3 outs
    | true =>
      exact ⟨fun _ => rfl, fun h => by simp [safe_write_parquet] at h⟩
  refine ⟨(hgen d em).1, (hgen d em).2, ?_⟩
  intro hfail
  have h2 := (hgen (derive_states bars) bars.isEmpty).1 hfail
  have hpair : safe_write_parquet tgt (derive_states bars) bars.isEmpty outs
      = (false, tgt) := by
    cases hsw : safe_write_parquet tgt (derive_states bars) bars.isEmpty outs with
    | mk b t =>
      rw [hsw] at hfail h2
      simp only at hfail h2
      rw [hfail, h2]
  simp only [create_limit_status_parquet]
  rw [hpair]
  exact ⟨rfl, rfl⟩

/-- Witness for `c8_atomic_write`: three failing attempts leave the old
snapshot in place and raise; exercised at a concrete old snapshot and an
empty new batch. -/
theorem c8_atomic_write_witness :
    ((safe_write_parquet (some [⟨0, none, "0天0板"⟩]) [] true
        [WriteOutcome.writeFail, WriteOutcome.renameFail, WriteOutcome.writeFail]).1 = false →
      (safe_write_parquet (some [⟨0, none, "0天0板"⟩]) [] true
        [WriteOutcome.writeFail, WriteOutcome.renameFail, WriteOutcome.writeFail]).2 =
        some [⟨0, none, "0天0板"⟩]) ∧
    ((safe_write_parquet (some [⟨0, none, "0天0板"⟩]) [] true
        [WriteOutcome.writeFail, WriteOutcome.renameFail, WriteOutcome.writeFail]).1 = true →
      (safe_write_parquet (some [⟨0, none, "0天0板"⟩]) [] true
        [WriteOutcome.writeFail, WriteOutcome.renameFail, WriteOutcome.writeFail]).2 = some []) ∧
    ((safe_write_parquet (some [⟨0, none, "0天0板"⟩]) (derive_states ([] : List RawBar))
        (([] : List RawBar).isEmpty)
        [WriteOutcome.writeFail, WriteOutcome.renameFail, WriteOutcome.writeFail]).1 = false →
      (create_limit_status_parquet [] (some [⟨0, none, "0天0板"⟩])
        [WriteOutcome.writeFail, WriteOutcome.renameFail, WriteOutcome.writeFail]).1 =
        Except.error "写入市场状态数据文件失败" ∧
      (create_limit_status_parquet [] (some [⟨0, none, "0天0板"⟩])
        [WriteOutcome.writeFail, WriteOutcome.renameFail, WriteOutcome.writeFail]).2 =
        some [⟨0, none, "0天0板"⟩]) :=
  c8_atomic_write (some [⟨0, none, "0天0板"⟩]) []
    true [WriteOutcome.writeFail, WriteOutcome.renameFail, WriteOutcome.writeFail] []

end Replay
